import Mathlib

/-!
Verification development for the gst-deepspeech GStreamer element
(src/src/gstdeepspeech.cc).  The per-buffer processing of the element
(gst_deepspeech_chain), its end-of-stream handling
(gst_deepspeech_sink_event, EOS branch), the worker body
(run_model_async) and the bus-message construction
(gst_deepspeech_message_new) are embedded shallowly below.

Modelling conventions:
* S16LE samples are modelled as `Int` values; the C `gdouble` arithmetic on
  squares of 16-bit samples is exact real arithmetic for all realistic buffer
  sizes, so doubles are modelled as exact rationals (`ℚ`).
* `GstClockTime` values are modelled as `Option Nat`; the sentinel
  `GST_CLOCK_TIME_NONE` (an unset timestamp) is `none`.
* External GStreamer library functions are embedded with their documented
  semantics: `gst_buffer_new` yields an empty buffer with unset
  timestamp/duration; `gst_buffer_append b1 b2` concatenates the memory of
  `b2` onto `b1` and keeps the metadata of `b1` (gstbuffer.c,
  gst_buffer_append_region returns `buf1` with its metadata untouched);
  `gst_buffer_copy_deep` copies memory and metadata, i.e. is the identity in
  a value-semantics model.  In gst_deepspeech_chain the incoming buffer is
  `gst_buffer_ref`ed before `gst_buffer_append`, so the append operates on a
  writable copy and the forwarded buffer is never mutated; value semantics is
  therefore faithful for the forwarded buffer as well.
-/

/-- A GStreamer audio buffer as consumed by the element: S16LE mono samples
plus presentation timestamp and duration metadata.  The unset sentinel
`GST_CLOCK_TIME_NONE` is modelled as `none`. -/
structure GstBuffer where
  samples : List Int
  pts : Option Nat
  duration : Option Nat
deriving DecidableEq, Repr

/-- Model of `gst_buffer_new ()`: a fresh buffer with no memory and unset metadata. -/
def gst_buffer_new : GstBuffer := ⟨[], none, none⟩

/-- Model of `gst_buffer_get_size`, in bytes (two bytes per S16 sample). -/
def gst_buffer_get_size (b : GstBuffer) : Nat := 2 * b.samples.length

/-- Model of `gst_buffer_append b1 b2`: all memory of `b2` is appended to `b1` and the
result is `b1`, whose timestamp/duration metadata is kept unchanged. -/
def gst_buffer_append (b1 b2 : GstBuffer) : GstBuffer :=
  ⟨b1.samples ++ b2.samples, b1.pts, b1.duration⟩

/-- Model of `gst_buffer_copy_deep`: a full copy of memory and metadata, the identity
under value semantics. -/
def gst_buffer_copy_deep (b : GstBuffer) : GstBuffer := b

/-- The fixed normalizer `(gdouble)(G_GINT64_CONSTANT(1) << 30)` of
gst_deepspeech_chain (line 783). -/
def normalizer : ℚ := 2 ^ 30

/-- The sample loop of gst_deepspeech_chain (lines 777-781): one pass over the
S16 samples accumulating the running square sum and the running peak square,
returned as the pair `(squaresum, peaksquare)`.  Both accumulators start at
`0.0`. -/
def energy_loop (samples : List Int) : ℚ × ℚ :=
  samples.foldl
    (fun (acc : ℚ × ℚ) (s : Int) =>
      let square : ℚ := (s : ℚ) * (s : ℚ)
      (acc.1 + square, if square > acc.2 then square else acc.2))
    (0, 0)

/-- Value `ncs` of gst_deepspeech_chain (line 784): the normalized sum of squares
`squaresum / normalizer`. -/
def ncs (b : GstBuffer) : ℚ := (energy_loop b.samples).1 / normalizer

/-- Value `nps` of gst_deepspeech_chain (line 785): the normalized peak square
`peaksquare / normalizer`. -/
def nps (b : GstBuffer) : ℚ := (energy_loop b.samples).2 / normalizer

/-- The configurable properties read by the chain function:
`silence-threshold` (a double, range 0..1, default 0.1) and `silence-length`
(a gint, range 0..G_MAXINT, default 5). -/
structure DSConfig where
  silence_threshold : ℚ
  silence_length : Int
deriving DecidableEq, Repr

/-- The default property values DEFAULT_SILENCE_THRESHOLD = 0.1 and
DEFAULT_SILENCE_LENGTH = 5 (lines 466-467). -/
def defaultConfig : DSConfig := ⟨1 / 10, 5⟩

/-- The mutable element state touched by the chain function: the accumulator
buffer `deepspeech->buf` and the counter `deepspeech->quiet_bufs`. -/
structure DSState where
  buf : GstBuffer
  quiet_bufs : Int
deriving DecidableEq, Repr

/-- The state set up by gst_deepspeech_init (lines 619-621):
`quiet_bufs = 0` and a fresh empty accumulator buffer. -/
def initState : DSState := ⟨gst_buffer_new, 0⟩

/-- Lines 787-790 of gst_deepspeech_chain: the incoming buffer is appended to
the accumulator when `ncs > silence_threshold` or the accumulator already has
nonzero size; otherwise the accumulator is left unchanged. -/
def appendStep (cfg : DSConfig) (accum buf : GstBuffer) : GstBuffer :=
  if ncs buf > cfg.silence_threshold ∨ 0 < gst_buffer_get_size accum then
    gst_buffer_append accum buf
  else accum

/-- Lines 792-796 of gst_deepspeech_chain: `quiet_bufs` is incremented when
`ncs < silence_threshold` and the (post-append) accumulator has nonzero size,
and reset to 0 otherwise.  `accum` is the accumulator after the append step. -/
def quietStep (cfg : DSConfig) (accum buf : GstBuffer) (quiet_bufs : Int) : Int :=
  if ncs buf < cfg.silence_threshold ∧ 0 < gst_buffer_get_size accum then
    quiet_bufs + 1
  else 0

/-- The externally observable effects of one chain call: the segment pushed to
the thread pool on a flush (`g_thread_pool_push` of a deep copy, line 799), if
any, and the buffer pushed downstream (`gst_pad_push`, line 805). -/
structure ChainOutput where
  submitted : Option GstBuffer
  forwarded : GstBuffer
deriving DecidableEq, Repr

/-- gst_deepspeech_chain (lines 758-806): computes the energy metrics, runs the
append step, updates `quiet_bufs`, flushes the accumulator to the thread pool
when `quiet_bufs > silence_length` and the accumulator has nonzero size
(resetting the accumulator to a fresh empty buffer and `quiet_bufs` to 0), and
always forwards the incoming buffer downstream untouched. -/
def gst_deepspeech_chain (cfg : DSConfig) (s : DSState) (buf : GstBuffer) :
    DSState × ChainOutput :=
  let buf1 := appendStep cfg s.buf buf
  let q1 := quietStep cfg buf1 buf s.quiet_bufs
  if cfg.silence_length < q1 ∧ 0 < gst_buffer_get_size buf1 then
    (⟨gst_buffer_new, 0⟩, ⟨some (gst_buffer_copy_deep buf1), buf⟩)
  else
    (⟨buf1, q1⟩, ⟨none, buf⟩)

/-- The chain function applied to a whole stream of buffers in arrival order,
collecting the output of each call. -/
def processChain (cfg : DSConfig) : DSState → List GstBuffer → DSState × List ChainOutput
  | s, [] => (s, [])
  | s, b :: bs =>
    let r := gst_deepspeech_chain cfg s b
    let rest := processChain cfg r.1 bs
    (rest.1, r.2 :: rest.2)

/-- Model of `gst_segment_to_stream_time` on the segment initialised by
`gst_segment_init (&trans->segment, GST_FORMAT_TIME)` (line 601): with
start = offset = 0 this is the identity on valid clock times and maps the
unset sentinel to itself. -/
def gst_segment_to_stream_time (t : Option Nat) : Option Nat := t

/-- Model of `gst_segment_to_running_time` on the freshly initialised GST_FORMAT_TIME
segment: identity, as for stream time. -/
def gst_segment_to_running_time (t : Option Nat) : Option Nat := t

/-- The element bus message built by gst_deepspeech_message_new
(lines 698-718): a structure holding the timestamp of the segment buffer, the
derived stream/running times, the duration of the segment buffer and the
recognised text. -/
structure RecognitionEvent where
  timestamp : Option Nat
  stream_time : Option Nat
  running_time : Option Nat
  duration : Option Nat
  text : String
deriving DecidableEq, Repr

/-- gst_deepspeech_message_new (lines 698-718), applied to the buffer handed to
the worker and the inference result text. -/
def gst_deepspeech_message_new (buf : GstBuffer) (text : String) : RecognitionEvent :=
  ⟨buf.pts, gst_segment_to_stream_time buf.pts, gst_segment_to_running_time buf.pts,
    buf.duration, text⟩

/-- run_model_async (lines 515-540), with the external inference engine
(`model->getInputVector` followed by `model->infer`) abstracted as a function
from the segment samples to the result text: the bus message is posted exactly
when `strlen(result) > 0` (line 530), and carries the metadata of the
segment buffer. -/
def run_model_async (infer : List Int → String) (buf : GstBuffer) :
    Option RecognitionEvent :=
  let result := infer buf.samples
  if 0 < result.length then some (gst_deepspeech_message_new buf result) else none

/-- The observable actions of the EOS branch of gst_deepspeech_sink_event, in
program order: pushes to the thread pool, the draining pool shutdown
`g_thread_pool_free (pool, FALSE, TRUE)`, and the downstream forward of the
EOS event via `gst_pad_event_default`. -/
inductive EosAction where
  | submit (seg : GstBuffer)
  | drainAndStop
  | forwardEos
deriving DecidableEq, Repr

/-- The GST_EVENT_EOS branch of gst_deepspeech_sink_event (lines 741-747): when
the accumulator has nonzero size a deep copy of it is pushed to the thread
pool; then the pool is freed with immediate = FALSE, wait = TRUE (drain and
stop); then the event is forwarded downstream.  The element state (accumulator
and `quiet_bufs`) is not modified. -/
def gst_deepspeech_sink_event_eos (s : DSState) : DSState × List EosAction :=
  (s,
    (if 0 < gst_buffer_get_size s.buf then
      [EosAction.submit (gst_buffer_copy_deep s.buf)]
    else []) ++ [EosAction.drainAndStop, EosAction.forwardEos])

/-- The position of a run_model_async worker relative to the static `mutex`
(line 513): before `g_mutex_lock` (line 525), inside the critical section that
runs `getInputVector` and `infer` (lines 526-527), or past `g_mutex_unlock`
(line 528). -/
inductive WorkerPhase where
  | beforeLock
  | inCritical
  | afterUnlock
deriving DecidableEq, Repr

/-- A snapshot of the worker pool: the phase of each worker (workers are
indexed by `Nat`; g_thread_pool_new is created with unbounded max threads) and
the current holder of the static `mutex`, if any. -/
structure PoolState where
  phase : Nat → WorkerPhase
  owner : Option Nat

/-- The pool before any worker has reached `g_mutex_lock`: every worker is
before the lock and the mutex is free. -/
def initPool : PoolState := ⟨fun _ => WorkerPhase.beforeLock, none⟩

/-- Interleaving semantics of the workers around the static `mutex`:
`g_mutex_lock` completes for worker `w` only when the mutex is free, making
`w` the owner and moving it into the critical section; `g_mutex_unlock` by the
worker in the critical section frees the mutex. -/
inductive PoolStep : PoolState → PoolState → Prop
  | lock (w : Nat) (s : PoolState) (hw : s.phase w = WorkerPhase.beforeLock)
      (ho : s.owner = none) :
      PoolStep s ⟨Function.update s.phase w WorkerPhase.inCritical, some w⟩
  | unlock (w : Nat) (s : PoolState) (hw : s.phase w = WorkerPhase.inCritical)
      (ho : s.owner = some w) :
      PoolStep s ⟨Function.update s.phase w WorkerPhase.afterUnlock, none⟩

/-- Pool states reachable from the all-idle pool by interleaved lock/unlock
steps. -/
inductive PoolReachable : PoolState → Prop
  | init : PoolReachable initPool
  | step {s t : PoolState} : PoolReachable s → PoolStep s t → PoolReachable t

/-! ## Spec-side vocabulary

Definitions phrased the way the specification states them, used in the claim
theorems and compared against the code-derived definitions above. -/

/-- Spec 4.2: a buffer is active when its normalized sum of squares strictly
exceeds the silence threshold. -/
def isActive (cfg : DSConfig) (b : GstBuffer) : Prop :=
  ncs b > cfg.silence_threshold

instance (cfg : DSConfig) (b : GstBuffer) : Decidable (isActive cfg b) := by
  unfold isActive; infer_instance

/-- Spec 4.1, stated as written: the sum of the squares of all samples. -/
def sumSquares (b : GstBuffer) : ℚ :=
  (b.samples.map (fun (s : Int) => (s : ℚ) * s)).sum

/-- Spec 4.1, stated as written: the maximum squared sample value (0 for an
empty buffer, all squares being nonnegative). -/
def maxSquare (b : GstBuffer) : ℚ :=
  (b.samples.map (fun (s : Int) => (s : ℚ) * s)).foldr max 0

/-- The samples of the segment the incoming buffer ended up in after the
append step of one chain call: the flushed segment if the call flushed, the
post-call accumulator otherwise. -/
def chainSegmentSamples (cfg : DSConfig) (s : DSState) (b : GstBuffer) : List Int :=
  match (gst_deepspeech_chain cfg s b).2.submitted with
  | some seg => seg.samples
  | none => (gst_deepspeech_chain cfg s b).1.buf.samples

/-- The per-segment submissions of a stream prefix, in order. -/
def submissions (cfg : DSConfig) (s : DSState) (bufs : List GstBuffer) : List GstBuffer :=
  (processChain cfg s bufs).2.filterMap ChainOutput.submitted

/-- The silence-gate invariant of the element state: the quiet-run counter
never exceeds the silence run limit, and a positive counter implies a
non-empty accumulator. -/
def dsInvariant (cfg : DSConfig) (s : DSState) : Prop :=
  s.quiet_bufs ≤ cfg.silence_length ∧ (0 < s.quiet_bufs → s.buf.samples ≠ [])

/-! ## Helper lemmas -/

theorem gst_buffer_get_size_pos (b : GstBuffer) :
    0 < gst_buffer_get_size b ↔ b.samples ≠ [] := by
  simp [gst_buffer_get_size, List.length_pos]

theorem foldr_max_shift (l : List ℚ) (p x : ℚ) :
    l.foldr max (max p x) = max x (l.foldr max p) := by
  induction l generalizing p with
  | nil => simp [max_comm]
  | cons y ys ih =>
    simp only [List.foldr_cons, ih]
    rw [max_left_comm]

theorem if_gt_eq_max (p x : ℚ) : (if x > p then x else p) = max p x := by
  rcases le_or_lt x p with h | h
  · simp [not_lt.mpr h, max_eq_left h]
  · simp [h, max_eq_right h.le]

theorem energy_loop_go (l : List Int) (a p : ℚ) :
    List.foldl
        (fun (acc : ℚ × ℚ) (s : Int) =>
          let square : ℚ := (s : ℚ) * (s : ℚ)
          (acc.1 + square, if square > acc.2 then square else acc.2))
        (a, p) l =
      (a + (l.map (fun (s : Int) => (s : ℚ) * s)).sum,
        (l.map (fun (s : Int) => (s : ℚ) * s)).foldr max p) := by
  induction l generalizing a p with
  | nil => simp
  | cons x xs ih =>
    simp only [List.foldl_cons, List.map_cons, List.sum_cons, List.foldr_cons]
    rw [ih]
    rw [if_gt_eq_max, foldr_max_shift]
    simp only [Prod.mk.injEq]
    constructor
    · ring
    · trivial

theorem energy_loop_eq (l : List Int) :
    energy_loop l =
      ((l.map (fun (s : Int) => (s : ℚ) * s)).sum,
        (l.map (fun (s : Int) => (s : ℚ) * s)).foldr max 0) := by
  unfold energy_loop
  rw [energy_loop_go, zero_add]

theorem ncs_nil (b : GstBuffer) (h : b.samples = []) : ncs b = 0 := by
  simp [ncs, energy_loop, h]

theorem samples_ne_nil_of_lt_ncs (cfg : DSConfig) (b : GstBuffer)
    (hthr : 0 ≤ cfg.silence_threshold) (h : cfg.silence_threshold < ncs b) :
    b.samples ≠ [] := by
  intro hnil
  rw [ncs_nil b hnil] at h
  exact absurd (lt_of_le_of_lt hthr h) (lt_irrefl 0)

theorem chain_forwarded (cfg : DSConfig) (s : DSState) (b : GstBuffer) :
    (gst_deepspeech_chain cfg s b).2.forwarded = b := by
  unfold gst_deepspeech_chain
  dsimp only
  split
  · rfl
  · rfl

theorem chain_flush_eq (cfg : DSConfig) (s : DSState) (b : GstBuffer)
    (h : cfg.silence_length < quietStep cfg (appendStep cfg s.buf b) b s.quiet_bufs ∧
      0 < gst_buffer_get_size (appendStep cfg s.buf b)) :
    gst_deepspeech_chain cfg s b =
      (initState, ⟨some (gst_buffer_copy_deep (appendStep cfg s.buf b)), b⟩) := by
  unfold gst_deepspeech_chain
  simp only [if_pos h]
  rfl

theorem chain_no_flush_eq (cfg : DSConfig) (s : DSState) (b : GstBuffer)
    (h : ¬ (cfg.silence_length < quietStep cfg (appendStep cfg s.buf b) b s.quiet_bufs ∧
      0 < gst_buffer_get_size (appendStep cfg s.buf b))) :
    gst_deepspeech_chain cfg s b =
      (⟨appendStep cfg s.buf b, quietStep cfg (appendStep cfg s.buf b) b s.quiet_bufs⟩,
        ⟨none, b⟩) := by
  unfold gst_deepspeech_chain
  simp only [if_neg h]

theorem appendStep_of_cond (cfg : DSConfig) (a b : GstBuffer)
    (h : ncs b > cfg.silence_threshold ∨ a.samples ≠ []) :
    appendStep cfg a b = gst_buffer_append a b := by
  unfold appendStep
  rw [if_pos]
  rcases h with h | h
  · exact Or.inl h
  · exact Or.inr ((gst_buffer_get_size_pos a).mpr h)

theorem appendStep_of_not_cond (cfg : DSConfig) (a b : GstBuffer)
    (h : ¬ (ncs b > cfg.silence_threshold ∨ a.samples ≠ [])) :
    appendStep cfg a b = a := by
  unfold appendStep
  rw [if_neg]
  intro hc
  rcases hc with hc | hc
  · exact h (Or.inl hc)
  · exact h (Or.inr ((gst_buffer_get_size_pos a).mp hc))

theorem chain_active_eq (cfg : DSConfig) (s : DSState) (b : GstBuffer)
    (hlen : 0 ≤ cfg.silence_length) (hact : cfg.silence_threshold < ncs b) :
    gst_deepspeech_chain cfg s b = (⟨gst_buffer_append s.buf b, 0⟩, ⟨none, b⟩) := by
  have happ : appendStep cfg s.buf b = gst_buffer_append s.buf b :=
    appendStep_of_cond cfg s.buf b (Or.inl hact)
  have hq : quietStep cfg (appendStep cfg s.buf b) b s.quiet_bufs = 0 := by
    unfold quietStep
    rw [if_neg]
    intro hc
    exact absurd hc.1 (not_lt.mpr (le_of_lt hact))
  rw [chain_no_flush_eq cfg s b (by rw [hq]; intro hc; exact absurd hc.1 (not_lt.mpr hlen)),
    hq, happ]

theorem chain_silent_eq (cfg : DSConfig) (s : DSState) (b : GstBuffer)
    (hsil : ncs b < cfg.silence_threshold) (hbuf : s.buf.samples ≠ [])
    (hno : s.quiet_bufs + 1 ≤ cfg.silence_length) :
    gst_deepspeech_chain cfg s b =
      (⟨gst_buffer_append s.buf b, s.quiet_bufs + 1⟩, ⟨none, b⟩) := by
  have happ : appendStep cfg s.buf b = gst_buffer_append s.buf b :=
    appendStep_of_cond cfg s.buf b (Or.inr hbuf)
  have hsize : 0 < gst_buffer_get_size (appendStep cfg s.buf b) := by
    rw [happ]
    exact (gst_buffer_get_size_pos _).mpr (by simp [gst_buffer_append, hbuf])
  have hq : quietStep cfg (appendStep cfg s.buf b) b s.quiet_bufs = s.quiet_bufs + 1 := by
    unfold quietStep
    rw [if_pos ⟨hsil, hsize⟩]
  rw [chain_no_flush_eq cfg s b (by rw [hq]; intro hc; exact absurd hc.1 (not_lt.mpr hno)),
    hq, happ]

theorem chain_silent_flush_eq (cfg : DSConfig) (s : DSState) (b : GstBuffer)
    (hsil : ncs b < cfg.silence_threshold) (hbuf : s.buf.samples ≠ [])
    (hfl : cfg.silence_length < s.quiet_bufs + 1) :
    gst_deepspeech_chain cfg s b =
      (initState, ⟨some (gst_buffer_append s.buf b), b⟩) := by
  have happ : appendStep cfg s.buf b = gst_buffer_append s.buf b :=
    appendStep_of_cond cfg s.buf b (Or.inr hbuf)
  have hsize : 0 < gst_buffer_get_size (appendStep cfg s.buf b) := by
    rw [happ]
    exact (gst_buffer_get_size_pos _).mpr (by simp [gst_buffer_append, hbuf])
  have hq : quietStep cfg (appendStep cfg s.buf b) b s.quiet_bufs = s.quiet_bufs + 1 := by
    unfold quietStep
    rw [if_pos ⟨hsil, hsize⟩]
  rw [chain_flush_eq cfg s b ⟨by rw [hq]; exact hfl, hsize⟩, happ]
  rfl

theorem processChain_nil (cfg : DSConfig) (s : DSState) :
    processChain cfg s [] = (s, []) := rfl

theorem processChain_cons (cfg : DSConfig) (s : DSState) (b : GstBuffer) (bs : List GstBuffer) :
    processChain cfg s (b :: bs) =
      ((processChain cfg (gst_deepspeech_chain cfg s b).1 bs).1,
        (gst_deepspeech_chain cfg s b).2 ::
          (processChain cfg (gst_deepspeech_chain cfg s b).1 bs).2) := rfl

theorem processChain_append (cfg : DSConfig) (s : DSState) (l1 l2 : List GstBuffer) :
    processChain cfg s (l1 ++ l2) =
      ((processChain cfg (processChain cfg s l1).1 l2).1,
        (processChain cfg s l1).2 ++ (processChain cfg (processChain cfg s l1).1 l2).2) := by
  induction l1 generalizing s with
  | nil => simp [processChain_nil]
  | cons b bs ih =>
    simp only [List.cons_append, processChain_cons, ih]

theorem submissions_nil (cfg : DSConfig) (s : DSState) : submissions cfg s [] = [] := rfl

theorem submissions_cons (cfg : DSConfig) (s : DSState) (b : GstBuffer) (bs : List GstBuffer) :
    submissions cfg s (b :: bs) =
      ((gst_deepspeech_chain cfg s b).2.submitted.toList ++
        submissions cfg (gst_deepspeech_chain cfg s b).1 bs) := by
  unfold submissions
  rw [processChain_cons]
  cases h : (gst_deepspeech_chain cfg s b).2.submitted with
  | none => simp [List.filterMap_cons, h]
  | some seg => simp [List.filterMap_cons, h]

theorem submissions_append (cfg : DSConfig) (s : DSState) (l1 l2 : List GstBuffer) :
    submissions cfg s (l1 ++ l2) =
      submissions cfg s l1 ++ submissions cfg (processChain cfg s l1).1 l2 := by
  unfold submissions
  rw [processChain_append]
  simp [List.filterMap_append]

theorem active_run (cfg : DSConfig) (hlen : 0 ≤ cfg.silence_length) :
    ∀ (act : List GstBuffer) (s : DSState),
      (∀ b ∈ act, cfg.silence_threshold < ncs b) →
      (processChain cfg s act).1 = ⟨act.foldl gst_buffer_append s.buf, 0⟩ ∨
        (act = [] ∧ (processChain cfg s act).1 = s) := by
  intro act
  induction act with
  | nil => intro s _; exact Or.inr ⟨rfl, rfl⟩
  | cons b bs ih =>
    intro s hact
    rw [processChain_cons]
    rw [chain_active_eq cfg s b hlen (hact b (List.mem_cons_self b bs))]
    rcases ih ⟨gst_buffer_append s.buf b, 0⟩ (fun x hx => hact x (List.mem_cons_of_mem b hx))
      with h | ⟨hnil, h⟩
    · exact Or.inl h
    · subst hnil
      rw [processChain_nil] at h ⊢
      exact Or.inl (by rw [h]; rfl)

theorem active_run_no_submission (cfg : DSConfig) (hlen : 0 ≤ cfg.silence_length) :
    ∀ (act : List GstBuffer) (s : DSState),
      (∀ b ∈ act, cfg.silence_threshold < ncs b) →
      submissions cfg s act = [] := by
  intro act
  induction act with
  | nil => intro s _; rfl
  | cons b bs ih =>
    intro s hact
    rw [submissions_cons]
    rw [chain_active_eq cfg s b hlen (hact b (List.mem_cons_self b bs))]
    simp only [Option.toList_none, List.nil_append]
    exact ih _ (fun x hx => hact x (List.mem_cons_of_mem b hx))

theorem foldl_append_samples (l : List GstBuffer) (a : GstBuffer) :
    (l.foldl gst_buffer_append a).samples = a.samples ++ (l.map GstBuffer.samples).flatten := by
  induction l generalizing a with
  | nil => simp
  | cons b bs ih =>
    simp only [List.foldl_cons, List.map_cons, List.flatten_cons, ih, gst_buffer_append,
      List.append_assoc]

theorem silent_run (cfg : DSConfig) :
    ∀ (sil : List GstBuffer) (s : DSState), sil ≠ [] →
      (∀ b ∈ sil, ncs b < cfg.silence_threshold) →
      s.buf.samples ≠ [] →
      s.quiet_bufs + (sil.length : Int) = cfg.silence_length + 1 →
      (processChain cfg s sil).1 = initState ∧ (submissions cfg s sil).length = 1 := by
  intro sil
  induction sil with
  | nil => intro s hne _ _ _; exact absurd rfl hne
  | cons b bs ih =>
    intro s _ hsil hbuf hcount
    have hb : ncs b < cfg.silence_threshold := hsil b (List.mem_cons_self b bs)
    cases bs with
    | nil =>
      have hq : s.quiet_bufs = cfg.silence_length := by
        simp only [List.length_cons, List.length_nil] at hcount
        omega
      have hfl : cfg.silence_length < s.quiet_bufs + 1 := by omega
      constructor
      · rw [processChain_cons, chain_silent_flush_eq cfg s b hb hbuf hfl]
        rfl
      · rw [submissions_cons, chain_silent_flush_eq cfg s b hb hbuf hfl]
        rfl
    | cons c cs =>
      have hno : s.quiet_bufs + 1 ≤ cfg.silence_length := by
        simp only [List.length_cons] at hcount ⊢
        omega
      have hstep := chain_silent_eq cfg s b hb hbuf hno
      have hbuf1 : (gst_buffer_append s.buf b).samples ≠ [] := by
        simp [gst_buffer_append, hbuf]
      have hcount1 :
          (⟨gst_buffer_append s.buf b, s.quiet_bufs + 1⟩ : DSState).quiet_bufs +
              (((c :: cs).length : Nat) : Int) = cfg.silence_length + 1 := by
        simp only [List.length_cons] at hcount ⊢
        push_cast at hcount ⊢
        omega
      have hrest := ih ⟨gst_buffer_append s.buf b, s.quiet_bufs + 1⟩ (by simp)
        (fun x hx => hsil x (List.mem_cons_of_mem b hx)) hbuf1 hcount1
      constructor
      · rw [processChain_cons, hstep]
        exact hrest.1
      · rw [submissions_cons, hstep]
        simpa using hrest.2

/-- The accumulator metadata invariant behind the event-timing behaviour: a
buffer whose timestamp and duration are both unset (`GST_CLOCK_TIME_NONE`). -/
def metaUnset (b : GstBuffer) : Prop := b.pts = none ∧ b.duration = none

theorem metaUnset_new : metaUnset gst_buffer_new := ⟨rfl, rfl⟩

theorem metaUnset_append (a b : GstBuffer) (h : metaUnset a) :
    metaUnset (gst_buffer_append a b) := h

theorem metaUnset_appendStep (cfg : DSConfig) (a b : GstBuffer) (h : metaUnset a) :
    metaUnset (appendStep cfg a b) := by
  unfold appendStep
  split
  · exact metaUnset_append a b h
  · exact h

theorem chain_metaUnset (cfg : DSConfig) (s : DSState) (b : GstBuffer)
    (h : metaUnset s.buf) :
    metaUnset (gst_deepspeech_chain cfg s b).1.buf ∧
      (∀ seg, (gst_deepspeech_chain cfg s b).2.submitted = some seg → metaUnset seg) := by
  unfold gst_deepspeech_chain
  dsimp only
  split
  · refine ⟨metaUnset_new, ?_⟩
    intro seg hseg
    simp only [Option.some.injEq] at hseg
    rw [← hseg]
    exact metaUnset_appendStep cfg s.buf b h
  · exact ⟨metaUnset_appendStep cfg s.buf b h, by intro seg hseg; simp at hseg⟩

theorem processChain_metaUnset (cfg : DSConfig) :
    ∀ (bufs : List GstBuffer) (s : DSState), metaUnset s.buf →
      metaUnset (processChain cfg s bufs).1.buf ∧
        (∀ seg ∈ submissions cfg s bufs, metaUnset seg) := by
  intro bufs
  induction bufs with
  | nil => intro s h; exact ⟨h, by intro seg hseg; simp [submissions_nil] at hseg⟩
  | cons b bs ih =>
    intro s h
    have hstep := chain_metaUnset cfg s b h
    have hrest := ih (gst_deepspeech_chain cfg s b).1 hstep.1
    refine ⟨by rw [processChain_cons]; exact hrest.1, ?_⟩
    intro seg hseg
    rw [submissions_cons] at hseg
    rcases List.mem_append.mp hseg with hm | hm
    · cases hsub : (gst_deepspeech_chain cfg s b).2.submitted with
      | none => rw [hsub] at hm; simp at hm
      | some seg0 =>
        rw [hsub] at hm
        simp only [Option.toList_some, List.mem_singleton] at hm
        rw [hm]
        exact hstep.2 seg0 hsub
    · exact hrest.2 seg hm

theorem chain_preserves_invariant (cfg : DSConfig) (s : DSState) (b : GstBuffer)
    (hlen : 0 ≤ cfg.silence_length) :
    dsInvariant cfg (gst_deepspeech_chain cfg s b).1 := by
  by_cases hfl : cfg.silence_length < quietStep cfg (appendStep cfg s.buf b) b s.quiet_bufs ∧
      0 < gst_buffer_get_size (appendStep cfg s.buf b)
  · rw [chain_flush_eq cfg s b hfl]
    exact ⟨hlen, fun h => absurd h (lt_irrefl 0)⟩
  · rw [chain_no_flush_eq cfg s b hfl]
    unfold dsInvariant
    dsimp only
    unfold quietStep at hfl ⊢
    by_cases hcond : ncs b < cfg.silence_threshold ∧
        0 < gst_buffer_get_size (appendStep cfg s.buf b)
    · rw [if_pos hcond] at hfl ⊢
      refine ⟨?_, fun _ => (gst_buffer_get_size_pos _).mp hcond.2⟩
      by_contra hgt
      exact hfl ⟨lt_of_not_le hgt, hcond.2⟩
    · rw [if_neg hcond]
      exact ⟨hlen, fun h => absurd h (lt_irrefl 0)⟩

theorem eos_preserves_state (s : DSState) : (gst_deepspeech_sink_event_eos s).1 = s := rfl

/-- The mutex-ownership invariant of the worker pool: a worker inside the
critical section is the mutex owner. -/
def poolInvariant (s : PoolState) : Prop :=
  ∀ w, s.phase w = WorkerPhase.inCritical → s.owner = some w

theorem poolInvariant_init : poolInvariant initPool := by
  intro w h
  simp [initPool] at h

theorem poolInvariant_step (s t : PoolState) (hinv : poolInvariant s) (hstep : PoolStep s t) :
    poolInvariant t := by
  cases hstep with
  | lock w s hw ho =>
    intro v hv
    dsimp only at hv ⊢
    by_cases hvw : v = w
    · subst hvw
      rfl
    · rw [Function.update_noteq hvw] at hv
      have hov := hinv v hv
      rw [ho] at hov
      exact absurd hov (by simp)
  | unlock w s hw ho =>
    intro v hv
    dsimp only at hv ⊢
    by_cases hvw : v = w
    · subst hvw
      rw [Function.update_same] at hv
      exact absurd hv (by decide)
    · rw [Function.update_noteq hvw] at hv
      have hov := hinv v hv
      rw [ho] at hov
      simp only [Option.some.injEq] at hov
      exact absurd hov.symm hvw

theorem poolInvariant_reachable (s : PoolState) (h : PoolReachable s) : poolInvariant s := by
  induction h with
  | init => exact poolInvariant_init
  | step _ hstep ih => exact poolInvariant_step _ _ ih hstep

/-! ## Concrete runs used by counterexamples and witnesses -/

/-- A buffer whose single sample 16385 gives `ncs = 16385^2 / 2^30`, strictly
above a threshold of 1/4. -/
def bufActive : GstBuffer := ⟨[16385], some 0, some 20⟩

/-- A buffer whose single sample 16384 gives `ncs = 2^28 / 2^30 = 1/4`,
exactly equal to a threshold of 1/4: neither above nor below it. -/
def bufBoundary : GstBuffer := ⟨[16384], some 20, some 20⟩

/-- An all-zero (silent) buffer at t = 20ms. -/
def bufZero1 : GstBuffer := ⟨[0], some 20, some 20⟩

/-- An all-zero (silent) buffer at t = 40ms. -/
def bufZero2 : GstBuffer := ⟨[0], some 40, some 20⟩

/-- A configuration with silence-threshold 1/4 (a double exactly representable
in binary) and silence-length 1. -/
def cfgQuarter : DSConfig := ⟨1 / 4, 1⟩

/-- An element state whose accumulator already holds one appended buffer. -/
def stateHolding : DSState := ⟨⟨[16385], none, none⟩, 0⟩

theorem quarterRun_submissions :
    submissions cfgQuarter initState [bufActive, bufZero1, bufZero2] =
      [⟨[16385, 0, 0], none, none⟩] := by
  norm_num [submissions, processChain, gst_deepspeech_chain, appendStep, quietStep,
    gst_buffer_append, gst_buffer_get_size, gst_buffer_copy_deep, gst_buffer_new, initState,
    ncs, energy_loop, normalizer, bufActive, bufZero1, bufZero2, cfgQuarter,
    List.filterMap_cons, List.filterMap_nil]

theorem boundaryRun_no_submission :
    submissions cfgQuarter initState ([bufActive] ++ [bufBoundary, bufBoundary]) = [] := by
  norm_num [submissions, processChain, gst_deepspeech_chain, appendStep, quietStep,
    gst_buffer_append, gst_buffer_get_size, gst_buffer_copy_deep, gst_buffer_new, initState,
    ncs, energy_loop, normalizer, bufActive, bufBoundary, cfgQuarter,
    List.filterMap_cons, List.filterMap_nil]

/-! ## Claim theorems -/

/-- C1, counterexample.  In the run `[bufActive, bufZero1, bufZero2]` under
threshold 1/4 and silence-length 1, the flushed segment consists of the three
buffers and the first constituent buffer has timestamp 0 and duration 20, yet
the emitted event carries timestamp `none` (`GST_CLOCK_TIME_NONE`) and
duration `none`, because `gst_buffer_append` keeps the metadata of the
initially empty accumulator buffer.  The claim "timestamp equals the first
constituent buffer timestamp and duration equals its duration" is therefore
false at this input. -/
theorem c1_counterexample :
    submissions cfgQuarter initState [bufActive, bufZero1, bufZero2] =
        [⟨[16385, 0, 0], none, none⟩] ∧
    run_model_async (fun _ => "hello") ⟨[16385, 0, 0], none, none⟩ =
        some ⟨none, none, none, none, "hello"⟩ ∧
    bufActive.pts = some 0 ∧ bufActive.duration = some 20 ∧
    (none : Option Nat) ≠ some 0 ∧ (none : Option Nat) ≠ some 20 :=
  ⟨quarterRun_submissions, by decide, rfl, rfl, by simp, by simp⟩

/-- C1, amended.  Every segment flushed by the chain function from the initial
element state has unset (`GST_CLOCK_TIME_NONE`) timestamp and duration — the
metadata of the empty buffer the accumulator started from, which
`gst_buffer_append` preserves — and hence every emitted RecognitionEvent has
unset timestamp and duration, not the values of the first constituent
buffer. -/
theorem c1_event_metadata_unset (cfg : DSConfig) (bufs : List GstBuffer) (seg : GstBuffer)
    (hseg : seg ∈ submissions cfg initState bufs) (infer : List Int → String)
    (ev : RecognitionEvent) (hev : run_model_async infer seg = some ev) :
    ev.timestamp = none ∧ ev.duration = none := by
  have hmeta := (processChain_metaUnset cfg bufs initState ⟨rfl, rfl⟩).2 seg hseg
  unfold run_model_async at hev
  dsimp only at hev
  split at hev
  · injection hev with h2
    rw [← h2]
    exact ⟨hmeta.1, hmeta.2⟩
  · exact absurd hev (by simp)

/-- C1, witness for the amended theorem: the event of the concrete
counterexample run indeed has unset timestamp and duration. -/
theorem c1_witness :
    (⟨none, none, none, none, "hello"⟩ : RecognitionEvent).timestamp = none ∧
    (⟨none, none, none, none, "hello"⟩ : RecognitionEvent).duration = none :=
  c1_event_metadata_unset cfgQuarter [bufActive, bufZero1, bufZero2]
    ⟨[16385, 0, 0], none, none⟩
    (by rw [quarterRun_submissions]; exact List.mem_singleton_self _)
    (fun _ => "hello") ⟨none, none, none, none, "hello"⟩ (by decide)

/-- C2, counterexample.  Take threshold 1/4, silence-length 1, one active
buffer followed by exactly silence-length + 1 = 2 buffers that are inactive in
the claimed sense (`ncs` not greater than the threshold: here `ncs` equals the
threshold exactly).  The code increments `quiet_bufs` only when
`ncs < silence_threshold`, so the quiet run resets on each boundary buffer and
zero flushes occur, not exactly one as the claim states. -/
theorem c2_counterexample :
    ¬ isActive cfgQuarter bufBoundary ∧ isActive cfgQuarter bufActive ∧
    (([bufBoundary, bufBoundary] : List GstBuffer).length : Int) =
        cfgQuarter.silence_length + 1 ∧
    (submissions cfgQuarter initState ([bufActive] ++ [bufBoundary, bufBoundary])).length = 0 ∧
    (0 : Nat) ≠ 1 := by
  refine ⟨?_, ?_, by norm_num [cfgQuarter], ?_, by simp⟩
  · norm_num [isActive, ncs, energy_loop, normalizer, bufBoundary, cfgQuarter]
  · norm_num [isActive, ncs, energy_loop, normalizer, bufActive, cfgQuarter]
  · rw [boundaryRun_no_submission]
    rfl

/-- C2, amended.  (a) For every processed buffer, a flush occurs if and only
if, after the quiet-run update, `quiet_bufs` exceeds `silence_length` and the
(post-append) accumulator is non-empty; the flush submits exactly the
accumulated segment (one deep copy), resets `quiet_bufs` to 0 and replaces the
accumulator with a fresh empty segment.  (b) For a sequence of N >= 1 active
buffers followed by exactly `silence_length + 1` buffers that are strictly
below the threshold (silent in the sense of the code, rather than merely
not-active), exactly one flush occurs, after which `quiet_bufs` is 0 and a
fresh empty segment begins. -/
theorem c2_flush_characterisation :
    (∀ (cfg : DSConfig) (s : DSState) (b : GstBuffer),
      ((gst_deepspeech_chain cfg s b).2.submitted ≠ none ↔
        (cfg.silence_length < quietStep cfg (appendStep cfg s.buf b) b s.quiet_bufs ∧
          (appendStep cfg s.buf b).samples ≠ [])) ∧
      ((gst_deepspeech_chain cfg s b).2.submitted ≠ none →
        (gst_deepspeech_chain cfg s b).2.submitted =
            some (gst_buffer_copy_deep (appendStep cfg s.buf b)) ∧
          (gst_deepspeech_chain cfg s b).1 = initState)) ∧
    (∀ (cfg : DSConfig) (act sil : List GstBuffer),
      0 ≤ cfg.silence_threshold → 0 ≤ cfg.silence_length → act ≠ [] →
      (∀ b ∈ act, cfg.silence_threshold < ncs b) →
      (∀ b ∈ sil, ncs b < cfg.silence_threshold) →
      (sil.length : Int) = cfg.silence_length + 1 →
      (submissions cfg initState (act ++ sil)).length = 1 ∧
        (processChain cfg initState (act ++ sil)).1 = initState) := by
  constructor
  · intro cfg s b
    by_cases hfl : cfg.silence_length < quietStep cfg (appendStep cfg s.buf b) b s.quiet_bufs ∧
        0 < gst_buffer_get_size (appendStep cfg s.buf b)
    · rw [chain_flush_eq cfg s b hfl]
      refine ⟨⟨fun _ => ⟨hfl.1, (gst_buffer_get_size_pos _).mp hfl.2⟩, fun _ => by simp⟩,
        fun _ => ⟨rfl, rfl⟩⟩
    · rw [chain_no_flush_eq cfg s b hfl]
      refine ⟨⟨fun hne => absurd rfl hne, fun hc => ?_⟩, fun hne => absurd rfl hne⟩
      exact absurd ⟨hc.1, (gst_buffer_get_size_pos _).mpr hc.2⟩ hfl
  · intro cfg act sil hthr hlen hact_ne hact hsil hcount
    have hstate := active_run cfg hlen act initState hact
    rcases hstate with hstate | ⟨hnil, _⟩
    swap
    · exact absurd hnil hact_ne
    have hsub_act := active_run_no_submission cfg hlen act initState hact
    have hbufne : (act.foldl gst_buffer_append initState.buf).samples ≠ [] := by
      rw [foldl_append_samples]
      cases act with
      | nil => exact absurd rfl hact_ne
      | cons a rest =>
        have ha : a.samples ≠ [] :=
          samples_ne_nil_of_lt_ncs cfg a hthr (hact a (List.mem_cons_self a rest))
        simp only [initState, gst_buffer_new, List.map_cons, List.flatten_cons,
          List.nil_append]
        intro hnil
        exact ha (List.append_eq_nil.mp hnil).1
    have hsil_ne : sil ≠ [] := by
      intro hnil
      rw [hnil] at hcount
      simp at hcount
      omega
    have hrun := silent_run cfg sil ⟨act.foldl gst_buffer_append initState.buf, 0⟩ hsil_ne
      hsil hbufne (by rw [zero_add]; exact hcount)
    constructor
    · rw [submissions_append, hsub_act, List.nil_append, hstate]
      exact hrun.2
    · rw [processChain_append]
      rw [hstate]
      exact hrun.1

/-- C2, witness for the amended theorem: one active buffer followed by two
silent buffers under silence-length 1 yields exactly one flush and leaves the
element in the initial state. -/
theorem c2_witness :
    (submissions cfgQuarter initState ([bufActive] ++ [bufZero1, bufZero2])).length = 1 ∧
    (processChain cfgQuarter initState ([bufActive] ++ [bufZero1, bufZero2])).1 = initState :=
  c2_flush_characterisation.2 cfgQuarter [bufActive] [bufZero1, bufZero2]
    (by norm_num [cfgQuarter]) (by norm_num [cfgQuarter]) (by simp)
    (by
      intro b hb
      simp only [List.mem_singleton] at hb
      subst hb
      norm_num [ncs, energy_loop, normalizer, bufActive, cfgQuarter])
    (by
      intro b hb
      simp only [List.mem_cons, List.not_mem_nil, or_false] at hb
      rcases hb with hb | hb <;>
        (subst hb; norm_num [ncs, energy_loop, normalizer, bufZero1, bufZero2, cfgQuarter]))
    (by norm_num [cfgQuarter])

theorem chainSegmentSamples_eq (cfg : DSConfig) (s : DSState) (b : GstBuffer) :
    chainSegmentSamples cfg s b = (appendStep cfg s.buf b).samples := by
  unfold chainSegmentSamples
  by_cases hfl : cfg.silence_length < quietStep cfg (appendStep cfg s.buf b) b s.quiet_bufs ∧
      0 < gst_buffer_get_size (appendStep cfg s.buf b)
  · rw [chain_flush_eq cfg s b hfl]
    rfl
  · rw [chain_no_flush_eq cfg s b hfl]

/-- C3.  For every incoming buffer with at least one sample, the samples of
the buffer are appended to the current segment (whether it stays in the
accumulator or is flushed in the same call) if and only if the buffer is
active (`ncs` strictly above the silence threshold) or the accumulator is
already non-empty; in particular, once a segment has started, below-threshold
buffers keep being appended until the flush. -/
theorem c3_append_iff (cfg : DSConfig) (s : DSState) (b : GstBuffer)
    (hb : b.samples ≠ []) :
    chainSegmentSamples cfg s b = s.buf.samples ++ b.samples ↔
      (isActive cfg b ∨ s.buf.samples ≠ []) := by
  rw [chainSegmentSamples_eq]
  constructor
  · intro heq
    by_contra hc
    rw [appendStep_of_not_cond cfg s.buf b (by
      intro hor
      exact hc (hor.imp (fun h => h) (fun h => h)))] at heq
    exact hb (List.self_eq_append_right.mp heq)
  · intro hor
    rw [appendStep_of_cond cfg s.buf b (hor.imp (fun h => h) (fun h => h))]
    rfl

/-- C3, witness: an active buffer arriving at the initial (empty-accumulator)
state is appended. -/
theorem c3_witness :
    chainSegmentSamples cfgQuarter initState bufActive =
        initState.buf.samples ++ bufActive.samples ↔
      (isActive cfgQuarter bufActive ∨ initState.buf.samples ≠ []) :=
  c3_append_iff cfgQuarter initState bufActive (by simp [bufActive])

/-- C4, counterexample.  With threshold 1/4 and a non-empty accumulator, a
buffer whose `ncs` equals the threshold exactly is not active in the claimed
sense (`ncs` is not greater than the threshold), so the claim requires
`quiet_bufs` to be incremented from 0 to 1; the code instead resets it to 0,
because its increment condition is the strict `ncs < silence_threshold`. -/
theorem c4_counterexample :
    ¬ isActive cfgQuarter bufBoundary ∧ stateHolding.buf.samples ≠ [] ∧
    (gst_deepspeech_chain cfgQuarter stateHolding bufBoundary).1.quiet_bufs = 0 ∧
    stateHolding.quiet_bufs + 1 ≠ 0 := by
  refine ⟨?_, by simp [stateHolding], ?_, by norm_num [stateHolding]⟩
  · norm_num [isActive, ncs, energy_loop, normalizer, bufBoundary, cfgQuarter]
  · norm_num [gst_deepspeech_chain, appendStep, quietStep, gst_buffer_append,
      gst_buffer_get_size, gst_buffer_new, ncs, energy_loop, normalizer, bufBoundary,
      cfgQuarter, stateHolding]

/-- C4, amended.  For every incoming buffer, the quiet-run update sets
`quiet_bufs` to the old value plus 1 exactly when `ncs` is strictly below the
silence threshold and the accumulator is non-empty (equivalently before or
after the append step, since a below-threshold buffer is only appended to an
already non-empty accumulator), and resets it to 0 in every other case —
including the boundary case `ncs = silence_threshold`, which the original
claim classified as an increment. -/
theorem c4_quiet_update (cfg : DSConfig) (s : DSState) (b : GstBuffer) :
    quietStep cfg (appendStep cfg s.buf b) b s.quiet_bufs =
      if ncs b < cfg.silence_threshold ∧ s.buf.samples ≠ [] then s.quiet_bufs + 1
      else 0 := by
  unfold quietStep
  by_cases hsil : ncs b < cfg.silence_threshold
  · by_cases hbuf : s.buf.samples ≠ []
    · rw [appendStep_of_cond cfg s.buf b (Or.inr hbuf)]
      rw [if_pos ⟨hsil, (gst_buffer_get_size_pos _).mpr (by simp [gst_buffer_append, hbuf])⟩,
        if_pos ⟨hsil, hbuf⟩]
    · push_neg at hbuf
      rw [appendStep_of_not_cond cfg s.buf b (by
        intro hor
        rcases hor with h | h
        · exact absurd h (not_lt.mpr (le_of_lt hsil))
        · exact h hbuf)]
      rw [if_neg (by
        intro hc
        exact absurd ((gst_buffer_get_size_pos _).mp hc.2) (by simp [hbuf])),
        if_neg (by intro hc; exact hc.2 hbuf)]
  · rw [if_neg (by intro hc; exact hsil hc.1), if_neg (by intro hc; exact hsil hc.1)]

/-- C5.  For every dispatched segment, with the external inference engine
abstracted as a function from the segment samples to the result text, a
RecognitionEvent is posted if and only if the result text has positive length,
and the posted event (necessarily unique, being the single optional result of
the worker body) is exactly the bus message built from the segment buffer and
that text. -/
theorem c5_event_iff_nonempty_text (infer : List Int → String) (seg : GstBuffer) :
    ((run_model_async infer seg ≠ none) ↔ 0 < (infer seg.samples).length) ∧
    (∀ ev, run_model_async infer seg = some ev →
      ev = gst_deepspeech_message_new seg (infer seg.samples)) := by
  unfold run_model_async
  dsimp only
  by_cases h : 0 < (infer seg.samples).length
  · rw [if_pos h]
    refine ⟨⟨fun _ => h, fun _ => by simp⟩, fun ev hev => ?_⟩
    injection hev with h2
    exact h2.symm
  · rw [if_neg h]
    exact ⟨⟨fun hn => absurd rfl hn, fun hp => absurd hp h⟩,
      fun ev hev => absurd hev (by simp)⟩

/-- C5, witness: a one-character result on the empty segment produces exactly
the corresponding event. -/
theorem c5_witness :
    (run_model_async (fun _ => "a") gst_buffer_new ≠ none) ∧
    (⟨none, none, none, none, "a"⟩ : RecognitionEvent) =
      gst_deepspeech_message_new gst_buffer_new ((fun _ => "a") gst_buffer_new.samples) :=
  ⟨(c5_event_iff_nonempty_text (fun _ => "a") gst_buffer_new).1.mpr (by decide),
    (c5_event_iff_nonempty_text (fun _ => "a") gst_buffer_new).2
      ⟨none, none, none, none, "a"⟩ (by decide)⟩

/-- C6.  On end-of-stream: with a non-empty accumulator the handler performs
exactly one submission (a deep copy of the accumulated segment), then drains
and stops the worker pool, and only then forwards the end-of-stream
downstream; with an empty accumulator it submits nothing and just drains,
stops and forwards. -/
theorem c6_eos_submission (s : DSState) :
    (s.buf.samples ≠ [] →
      (gst_deepspeech_sink_event_eos s).2 =
        [EosAction.submit (gst_buffer_copy_deep s.buf), EosAction.drainAndStop,
          EosAction.forwardEos]) ∧
    (s.buf.samples = [] →
      (gst_deepspeech_sink_event_eos s).2 =
        [EosAction.drainAndStop, EosAction.forwardEos]) := by
  unfold gst_deepspeech_sink_event_eos
  constructor
  · intro h
    rw [if_pos ((gst_buffer_get_size_pos s.buf).mpr h)]
    rfl
  · intro h
    rw [if_neg (by rw [gst_buffer_get_size_pos]; exact fun hne => hne h)]
    rfl

/-- C6, witness: a state holding one buffer submits it once before the drain
and the downstream forward. -/
theorem c6_witness :
    (gst_deepspeech_sink_event_eos stateHolding).2 =
      [EosAction.submit (gst_buffer_copy_deep stateHolding.buf), EosAction.drainAndStop,
        EosAction.forwardEos] :=
  (c6_eos_submission stateHolding).1 (by simp [stateHolding])

/-- C7.  In any pool state reachable by interleaved worker steps around the
static `mutex`, at most one worker is inside the critical section that runs
feature extraction and model inference: any two workers in the critical
section are the same worker. -/
theorem c7_mutual_exclusion (s : PoolState) (hs : PoolReachable s) (w v : Nat)
    (hw : s.phase w = WorkerPhase.inCritical) (hv : s.phase v = WorkerPhase.inCritical) :
    w = v := by
  have h1 := poolInvariant_reachable s hs w hw
  have h2 := poolInvariant_reachable s hs v hv
  rw [h1] at h2
  exact Option.some_inj.mp h2

/-- A reachable pool state in which worker 0 holds the mutex and sits inside
the critical section. -/
def poolDemo : PoolState :=
  ⟨Function.update initPool.phase 0 WorkerPhase.inCritical, some 0⟩

/-- C7, witness: in the concrete reachable state where worker 0 is inside the
critical section, mutual exclusion instantiates to worker 0 alone. -/
theorem c7_witness : (0 : Nat) = 0 :=
  c7_mutual_exclusion poolDemo
    (PoolReachable.step PoolReachable.init (PoolStep.lock 0 initPool rfl rfl)) 0 0
    (by simp [poolDemo]) (by simp [poolDemo])

/-- C8.  Every incoming buffer is forwarded downstream exactly once, with its
sample data and metadata unmodified, in arrival order, whatever the
classification, accumulation or flush outcome of each buffer: the forwarded sequence of any
run equals the input sequence, and the (fire-and-forget) submissions do not
alter it. -/
theorem c8_passthrough (cfg : DSConfig) (s : DSState) (bufs : List GstBuffer) :
    (processChain cfg s bufs).2.map ChainOutput.forwarded = bufs := by
  induction bufs generalizing s with
  | nil => rfl
  | cons b bs ih =>
    rw [processChain_cons]
    simp only [List.map_cons, chain_forwarded, ih]

/-- C9.  For every buffer, the computed `ncs` equals the sum of the squares of
all samples divided by the normalizer `2^30`, and `nps` equals the maximum
squared sample value (0 for an empty list) divided by `2^30`; an empty buffer
yields 0 for both metrics. -/
theorem c9_energy_metrics (b : GstBuffer) :
    ncs b = sumSquares b / normalizer ∧
    nps b = maxSquare b / normalizer ∧
    (b.samples = [] → ncs b = 0 ∧ nps b = 0) := by
  refine ⟨?_, ?_, ?_⟩
  · unfold ncs sumSquares
    rw [energy_loop_eq]
  · unfold nps maxSquare
    rw [energy_loop_eq]
  · intro h
    constructor
    · simp [ncs, energy_loop, h]
    · simp [nps, energy_loop, h]

/-- C9, witness: the empty buffer yields zero for both metrics. -/
theorem c9_witness : ncs gst_buffer_new = 0 ∧ nps gst_buffer_new = 0 :=
  (c9_energy_metrics gst_buffer_new).2.2 rfl

/-- C10.  For every configuration with a non-negative silence run limit, the
silence-gate invariant — `quiet_bufs` at most `silence_length`, and positive
`quiet_bufs` implying a non-empty accumulator — holds in the initial state and
is preserved by every per-buffer chain step and by the end-of-stream handling
(which leaves the accumulator and counter untouched). -/
theorem c10_invariant_preserved (cfg : DSConfig) (hlen : 0 ≤ cfg.silence_length) :
    dsInvariant cfg initState ∧
    (∀ (s : DSState) (b : GstBuffer), dsInvariant cfg s →
      dsInvariant cfg (gst_deepspeech_chain cfg s b).1) ∧
    (∀ s : DSState, dsInvariant cfg s → dsInvariant cfg (gst_deepspeech_sink_event_eos s).1) := by
  refine ⟨⟨hlen, fun h => absurd h (lt_irrefl 0)⟩, ?_, ?_⟩
  · intro s b _
    exact chain_preserves_invariant cfg s b hlen
  · intro s h
    rw [eos_preserves_state]
    exact h

/-- C10, witness: with the default configuration the invariant holds initially
and after one active buffer. -/
theorem c10_witness :
    dsInvariant defaultConfig initState ∧
    dsInvariant defaultConfig (gst_deepspeech_chain defaultConfig initState bufActive).1 :=
  ⟨(c10_invariant_preserved defaultConfig (by norm_num [defaultConfig])).1,
    (c10_invariant_preserved defaultConfig (by norm_num [defaultConfig])).2.1 initState
      bufActive
      (c10_invariant_preserved defaultConfig (by norm_num [defaultConfig])).1⟩

/-- C4, witness for the amended theorem: a silent buffer arriving at a state
with a non-empty accumulator increments the counter. -/
theorem c4_witness :
    quietStep cfgQuarter (appendStep cfgQuarter stateHolding.buf bufZero1) bufZero1
        stateHolding.quiet_bufs =
      if ncs bufZero1 < cfgQuarter.silence_threshold ∧ stateHolding.buf.samples ≠ [] then
        stateHolding.quiet_bufs + 1
      else 0 :=
  c4_quiet_update cfgQuarter stateHolding bufZero1

/-- C8, witness: the three-buffer counterexample run forwards exactly its
input sequence. -/
theorem c8_witness :
    (processChain cfgQuarter initState [bufActive, bufZero1, bufZero2]).2.map
        ChainOutput.forwarded = [bufActive, bufZero1, bufZero2] :=
  c8_passthrough cfgQuarter initState [bufActive, bufZero1, bufZero2]
